import Mathlib

/-!
Verification of the qmoji policy engine (`src/policy.ts`).

This file gives a shallow embedding, in Lean 4, of the rule-based
access-control evaluator of the qmoji chat-bot: the data model
(`PolicyRule`, `PolicySelector`, `ActorContext`, `TargetContext`), the
selector matcher, the rule resolver (`pickRule` over `sortRules`), the
policy-manager operations (`isAllowed`, `addCustomRule`, `updateRule`,
`setRulePermissions`, `updateSinglePermission`, `removeRules`), the
construction-time deduplication (`dedupeRules`), and the storage loader
(`loadStorage`).

Modelling conventions:
* JavaScript numbers used by the module (user ids, priorities,
  `Date.now()` timestamps) only ever hold integers here, and are
  modelled as `Int`.
* `async` functions that can reject are modelled in `Except Unit`:
  `Except.error ()` is a thrown/rejected value, and `await` is the
  monadic bind, which propagates the error exactly as JS rethrows it.
  The only source of exceptions inside the module is the injected
  `ActorContext.isGroupAdmin` predicate.
* Nondeterministic inputs (`randomUUID()`, `Date.now()`) are passed as
  explicit arguments (`freshId`, `now`).
* `Array.prototype.sort` (V8) is a stable sort; it is modelled by a
  stable insertion sort parameterised by the strict "must come before"
  Boolean predicate derived from the source's comparator.
* `cloneRule` / `cloneRules` are deep copies, which are identities on
  immutable Lean values, and so are not reproduced.
-/

set_option maxHeartbeats 1000000
set_option maxRecDepth 8000

deriving instance DecidableEq for Except

namespace QmojiPolicy

/-- `PermissionAction` from the source: the three governed operations. -/
inductive PermissionAction where
  | read
  | create
  | remove
deriving DecidableEq, Repr

/-- `PermissionScope` from the source: the three ownership tiers. -/
inductive PermissionScope where
  | global
  | group
  | personal
deriving DecidableEq, Repr

/-- `PolicySelectorType` from the source.  The TypeScript type is a union
of string literals, but rules are loaded from a human-editable JSON file,
so at runtime the tag can be any string; the `unknown` constructor covers
every string other than the eight known tags, mirroring the `default`
arm of the matcher's `switch`. -/
inductive SelectorType where
  | admin
  | allowlist_user
  | everyone
  | user
  | group
  | groupadmin
  | owner
  | group_member
  | unknown (tag : String)
deriving DecidableEq, Repr

/-- `PolicySelector` from the source: a tagged variant with an optional
string payload. -/
structure PolicySelector where
  type : SelectorType
  value : Option String
deriving DecidableEq, Repr

/-- The `Record<PermissionAction, boolean>` permission map of a rule. -/
structure Permissions where
  read : Bool
  create : Bool
  remove : Bool
deriving DecidableEq, Repr

/-- `PolicyRule` from the source. -/
structure PolicyRule where
  id : String
  scope : PermissionScope
  selector : PolicySelector
  permissions : Permissions
  priority : Int
  createdAt : Int
deriving DecidableEq, Repr

/-- `ActorContext` from the source.  `isGroupAdmin` is the injected
asynchronous group-admin predicate; `none` models the field being
absent (`undefined`), and a present predicate returns in `Except Unit`
so that it can reject. -/
structure ActorContext where
  userId : Int
  groupId : Option Int
  isAdmin : Bool
  isAllowlistUser : Bool
  isAllowlistGroup : Bool
  isGroupAdmin : Option (String → Except Unit Bool)

/-- `TargetContext` from the source. -/
structure TargetContext where
  scope : PermissionScope
  ownerId : Option String
  groupId : Option String
deriving DecidableEq, Repr

/-- The string rendering of a scope, as used by the `ruleKey` template
literal. -/
def scopeText : PermissionScope → String
  | .global => "global"
  | .group => "group"
  | .personal => "personal"

/-- The string rendering of a selector tag, as used by the `ruleKey`
template literal. -/
def selectorTypeText : SelectorType → String
  | .admin => "admin"
  | .allowlist_user => "allowlist_user"
  | .everyone => "everyone"
  | .user => "user"
  | .group => "group"
  | .groupadmin => "groupadmin"
  | .owner => "owner"
  | .group_member => "group_member"
  | .unknown tag => tag

/-- `ruleKey` from the source:
the template literal `scope|selector.type|selector.value ?? ''`. -/
def ruleKey (scope : PermissionScope) (selector : PolicySelector) : String :=
  scopeText scope ++ "|" ++ selectorTypeText selector.type ++ "|" ++ selector.value.getD ""

/-- `selectorsEqual` from the source: tags equal and values equal after
defaulting a missing value to the empty string. -/
def selectorsEqual (a b : PolicySelector) : Prop :=
  a.type = b.type ∧ a.value.getD "" = b.value.getD ""

instance (a b : PolicySelector) : Decidable (selectorsEqual a b) :=
  inferInstanceAs (Decidable (And _ _))

/-- `defaultPermissionTemplates` from the source: the per-scope
permission baseline used when upserting a rule that does not exist yet. -/
def defaultPermissionTemplates : PermissionScope → Permissions
  | .global => { read := true, create := true, remove := false }
  | .group => { read := true, create := true, remove := true }
  | .personal => { read := true, create := true, remove := true }

/-- `sanitizePermissions` from the source: coerces each entry with
`Boolean(·)`.  The model stores permissions as `Bool` already, so this
is the identity re-packaging of the three fields. -/
def sanitizePermissions (permissions : Permissions) : Permissions :=
  { read := permissions.read, create := permissions.create, remove := permissions.remove }

/-- `matchesSelector` from the source.  JS truthiness tests on optional
strings (`Boolean(x && y && …)`, `groupId ? … : false`) are modelled by
the explicit `≠ ""` checks on present values; `x.toString()` on a JS
integer is `toString` on `Int`.  A rejection of the `isGroupAdmin`
promise surfaces as `Except.error ()` because the `await` is not guarded
by any try/catch. -/
def matchesSelector (selector : PolicySelector) (actor : ActorContext)
    (target : TargetContext) : Except Unit Bool :=
  match selector.type with
  | .admin => .ok actor.isAdmin
  | .allowlist_user => .ok (actor.isAllowlistUser || actor.isAllowlistGroup)
  | .everyone => .ok (actor.isAllowlistUser || actor.isAllowlistGroup)
  | .user =>
    .ok (match selector.value with
      | some v => decide (toString actor.userId = v)
      | none => false)
  | .group =>
    .ok (match selector.value, target.groupId with
      | some v, some g => !(decide (v = "")) && !(decide (g = "")) && decide (g = v)
      | _, _ => false)
  | .groupadmin =>
    match actor.isGroupAdmin with
    | none => .ok false
    | some pred =>
      match selector.value.orElse (fun _ => target.groupId) with
      | some g => if g = "" then .ok false else pred g
      | none => .ok false
  | .owner =>
    .ok (match target.ownerId with
      | some o => !(decide (o = "")) && decide (o = toString actor.userId)
      | none => false)
  | .group_member =>
    .ok (match target.groupId, actor.groupId with
      | some g, some ag => !(decide (g = "")) && decide (g = toString ag)
      | _, _ => false)
  | .unknown _ => .ok false

/-- Stable insertion step for the model of `Array.prototype.sort`: `x`
is placed before the first element that does not strictly precede it
under `bf`. -/
def insertBy (bf : α → α → Bool) (x : α) : List α → List α
  | [] => [x]
  | y :: ys => if bf y x then y :: insertBy bf x ys else x :: y :: ys

/-- Model of `Array.prototype.sort` for a consistent comparator: the
stable sort whose strict "comes before" relation is `bf`.  A stable sort
w.r.t. a total preorder is unique, so this insertion sort computes the
same list as V8's stable TimSort does for the corresponding comparator. -/
def sortByDesc (bf : α → α → Bool) (l : List α) : List α :=
  l.foldr (insertBy bf) []

/-- The comparator of `sortRules` in the source:
`(a, b) => a.priority === b.priority ? b.createdAt - a.createdAt : b.priority - a.priority`.
The comparator is negative (a before b) exactly when `ruleBefore a b`. -/
def ruleBefore (a b : PolicyRule) : Bool :=
  decide (b.priority < a.priority ∨ (a.priority = b.priority ∧ b.createdAt < a.createdAt))

/-- `sortRules` from the source: priority descending, ties by
`createdAt` descending. -/
def sortRules (rules : List PolicyRule) : List PolicyRule :=
  sortByDesc ruleBefore rules

/-- The scan loop of `pickRule`: walk the sorted candidates and return
the first whose selector matches; a thrown selector evaluation aborts
the scan and propagates. -/
def findMatch (actor : ActorContext) (target : TargetContext) :
    List PolicyRule → Except Unit (Option PolicyRule)
  | [] => .ok none
  | r :: rs =>
    match matchesSelector r.selector actor target with
    | .error e => .error e
    | .ok true => .ok (some r)
    | .ok false => findMatch actor target rs

/-- `pickRule` from the source: filter to the target's scope, return
`none` if nothing remains, otherwise scan the `sortRules` order for the
first selector match. -/
def pickRule (rules : List PolicyRule) (actor : ActorContext)
    (target : TargetContext) : Except Unit (Option PolicyRule) :=
  let scopedRules := rules.filter fun rule => decide (rule.scope = target.scope)
  if scopedRules.isEmpty then .ok none
  else findMatch actor target (sortRules scopedRules)

/-- The state owned by the policy-manager closure: the mutable custom
rule list (`storage.custom`) and the immutable deduplicated defaults. -/
structure PMState where
  custom : List PolicyRule
  defaults : List PolicyRule
deriving DecidableEq, Repr

/-- The `rule.permissions[action]` lookup (with its `Boolean(·)`
coercion, an identity here). -/
def getPermission (p : Permissions) : PermissionAction → Bool
  | .read => p.read
  | .create => p.create
  | .remove => p.remove

/-- `isAllowed` from the source: resolve against the custom rules, fall
back to the defaults, and deny when neither yields a rule.  Errors from
the selector matcher propagate through both awaited `pickRule` calls. -/
def isAllowed (st : PMState) (actor : ActorContext) (target : TargetContext)
    (action : PermissionAction) : Except Unit Bool :=
  match pickRule st.custom actor target with
  | .error e => .error e
  | .ok (some rule) => .ok (getPermission rule.permissions action)
  | .ok none =>
    match pickRule st.defaults actor target with
    | .error e => .error e
    | .ok (some fallback) => .ok (getPermission fallback.permissions action)
    | .ok none => .ok false

/-- The ordering key argument of `dedupeRules` (`keep: 'newest' | 'oldest'`). -/
inductive KeepMode where
  | newest
  | oldest
deriving DecidableEq, Repr

/-- The comparator `(a, b) => b.createdAt - a.createdAt` used by the
`keep === 'newest'` branch of `dedupeRules`: createdAt descending. -/
def createdAtBefore (a b : PolicyRule) : Bool :=
  decide (b.createdAt < a.createdAt)

/-- The `for … of` loop body of `dedupeRules`: keep the first rule seen
for each `(scope, selector)` key, in the given order. -/
def dedupePass (seen : List String) : List PolicyRule → List PolicyRule
  | [] => []
  | r :: rs =>
    if ruleKey r.scope r.selector ∈ seen then dedupePass seen rs
    else r :: dedupePass (ruleKey r.scope r.selector :: seen) rs

/-- `dedupeRules` from the source.  For `newest`, candidates are ordered
by `createdAt` descending; for `oldest`, they are ordered by
`sortRules` (priority descending, then `createdAt` descending).  The
first rule seen per `(scope, selector)` key is kept. -/
def dedupeRules (rules : List PolicyRule) (keep : KeepMode) : List PolicyRule :=
  let ordered :=
    match keep with
    | .newest => sortByDesc createdAtBefore rules
    | .oldest => sortRules rules
  dedupePass [] ordered

/-- The state built by `createPolicyManager` from the loaded custom
rules and the supplied default rules (the decoding of the JSON file
into `PolicyRule` values is the unvalidated `as PolicyStorage` cast in
the source and is abstracted into `storedCustom`). -/
def initState (storedCustom : List PolicyRule) (defaultRules : List PolicyRule) : PMState :=
  { custom := dedupeRules storedCustom .newest
    defaults := dedupeRules defaultRules .oldest }

/-- `resolvePriority` from the source: the `defaultPriorityMap` is built
by inserting each deduplicated default keyed by `ruleKey` (later inserts
overwrite earlier ones, hence the `reverse`), and a missing key resolves
to `0`. -/
def resolvePriority (defaults : List PolicyRule) (scope : PermissionScope)
    (selector : PolicySelector) : Int :=
  match defaults.reverse.find? (fun r => decide (ruleKey r.scope r.selector = ruleKey scope selector)) with
  | some r => r.priority
  | none => 0

/-- The argument of `addCustomRule`: a `PolicyRule` without `id` and
`createdAt`.  `priority` is declared as a plain number, but the source
still applies `?? resolvePriority(…)` to it, so it is optional here. -/
structure NewRuleInput where
  scope : PermissionScope
  selector : PolicySelector
  permissions : Permissions
  priority : Option Int
deriving DecidableEq, Repr

/-- `addCustomRule` from the source: build the new rule with a fresh id
and the current time, drop every stored rule sharing its `ruleKey`, and
append the new rule. -/
def addCustomRule (rule : NewRuleInput) (freshId : String) (now : Int)
    (st : PMState) : PolicyRule × PMState :=
  let newRule : PolicyRule :=
    { id := freshId
      scope := rule.scope
      selector := rule.selector
      permissions := rule.permissions
      priority := rule.priority.getD (resolvePriority st.defaults rule.scope rule.selector)
      createdAt := now }
  let key := ruleKey newRule.scope newRule.selector
  (newRule,
    { st with
      custom := (st.custom.filter fun existing =>
        !(decide (ruleKey existing.scope existing.selector = key))) ++ [newRule] })

/-- The `findIndex` call of `updateRule` bundled with the
`storage.custom[index]` lookup it is followed by: the first rule whose
scope equals `scope` and whose selector is `selectorsEqual` to
`selector`, together with its index. -/
def findRuleEntry (scope : PermissionScope) (selector : PolicySelector) :
    List PolicyRule → Option (Nat × PolicyRule)
  | [] => none
  | r :: rs =>
    if r.scope = scope ∧ selectorsEqual r.selector selector then some (0, r)
    else (findRuleEntry scope selector rs).map fun p => (p.1 + 1, p.2)

/-- `updateRule` from the source: upsert by `(scope, selector)`
identity.  An existing rule keeps its id (and its stored selector) and
gets the mutated, sanitised permissions, the resolved priority and a
refreshed `createdAt`; otherwise a fresh rule is created from the
per-scope permission template.  Returns the (cloned) rule and the
`created` flag. -/
def updateRule (scope : PermissionScope) (selector : PolicySelector)
    (priorityArg : Option Int) (mutator : Permissions → Permissions)
    (freshId : String) (now : Int) (st : PMState) :
    (PolicyRule × Bool) × PMState :=
  match findRuleEntry scope selector st.custom with
  | some entry =>
    let existing := entry.2
    let updatedPermissions := sanitizePermissions (mutator existing.permissions)
    let targetPriority := priorityArg.getD existing.priority
    let updatedRule : PolicyRule :=
      { existing with
        permissions := updatedPermissions
        priority := targetPriority
        createdAt := now }
    ((updatedRule, false), { st with custom := st.custom.set entry.1 updatedRule })
  | none =>
    let updatedPermissions := sanitizePermissions (mutator (defaultPermissionTemplates scope))
    let targetPriority := priorityArg.getD (resolvePriority st.defaults scope selector)
    let newRule : PolicyRule :=
      { id := freshId
        scope := scope
        selector := selector
        permissions := updatedPermissions
        priority := targetPriority
        createdAt := now }
    ((newRule, true), { st with custom := st.custom ++ [newRule] })

/-- `setRulePermissions` from the source: `updateRule` with a mutator
that replaces the whole permission map. -/
def setRulePermissions (scope : PermissionScope) (selector : PolicySelector)
    (priorityArg : Option Int) (permissions : Permissions)
    (freshId : String) (now : Int) (st : PMState) :
    (PolicyRule × Bool) × PMState :=
  updateRule scope selector priorityArg (fun _ => permissions) freshId now st

/-- The computed-key spread `{...current, [action]: value}`. -/
def setPermission (p : Permissions) : PermissionAction → Bool → Permissions
  | .read, v => { p with read := v }
  | .create, v => { p with create := v }
  | .remove, v => { p with remove := v }

/-- `updateSinglePermission` from the source: `updateRule` with a
mutator that overrides exactly one action. -/
def updateSinglePermission (scope : PermissionScope) (selector : PolicySelector)
    (priorityArg : Option Int) (action : PermissionAction) (value : Bool)
    (freshId : String) (now : Int) (st : PMState) :
    (PolicyRule × Bool) × PMState :=
  updateRule scope selector priorityArg (fun current => setPermission current action value)
    freshId now st

/-- The conjunction of the three optional filters of `removeRules`
applied to one rule (an omitted filter matches everything; the scope and
selector checks are truthiness guards in the source and the priority
check is an explicit `!== undefined`). -/
def matchesFilters (scopeArg : Option PermissionScope)
    (selectorArg : Option PolicySelector) (priorityArg : Option Int)
    (rule : PolicyRule) : Bool :=
  (match scopeArg with
   | some s => decide (rule.scope = s)
   | none => true) &&
  (match selectorArg with
   | some sel => decide (selectorsEqual rule.selector sel)
   | none => true) &&
  (match priorityArg with
   | some p => decide (rule.priority = p)
   | none => true)

/-- The `.map((rule, index) => ({rule, index}))` enumeration of
`removeRules`, with the running index made explicit. -/
def enumFrom (i : Nat) : List PolicyRule → List (PolicyRule × Nat)
  | [] => []
  | r :: rs => (r, i) :: enumFrom (i + 1) rs

/-- The comparator `(a, b) => b.rule.createdAt - a.rule.createdAt` of
`removeRules`: createdAt descending on (rule, index) entries. -/
def entryCreatedBefore (a b : PolicyRule × Nat) : Bool :=
  decide (b.1.createdAt < a.1.createdAt)

/-- `removeRules` from the source: enumerate the custom rules, keep the
entries matching every provided filter, return unchanged if none match;
otherwise sort the matches by `createdAt` descending, take all of them
(`removeAll`) or just the newest one, and splice the chosen indices out
in descending index order.  Splicing a descending list of indices
removes exactly the entries at those indices and collects the removed
rules highest-index-first, which is how the last two `let`s compute the
result. -/
def removeRules (scopeArg : Option PermissionScope)
    (selectorArg : Option PolicySelector) (priorityArg : Option Int)
    (removeAll : Bool) (st : PMState) : List PolicyRule × PMState :=
  let indexed := enumFrom 0 st.custom
  let matched := indexed.filter fun entry =>
    matchesFilters scopeArg selectorArg priorityArg entry.1
  if matched.isEmpty then ([], st)
  else
    let sorted := sortByDesc entryCreatedBefore matched
    let chosen := if removeAll then sorted else sorted.take 1
    let idxs := chosen.map fun entry => entry.2
    let removedRules := ((indexed.filter fun entry => idxs.contains entry.2).reverse).map
      fun entry => entry.1
    let remaining := (indexed.filter fun entry => !(idxs.contains entry.2)).map
      fun entry => entry.1
    (removedRules, { st with custom := remaining })

/-- A JavaScript value as far as `loadStorage` discriminates one: the
result of `JSON.parse` is inspected only through truthiness of its
`custom` property. -/
inductive JsValue where
  | undefinedv
  | nullv
  | boolv (b : Bool)
  | numv (n : Int)
  | strv (s : String)
  | arrv (elems : List JsValue)
  | objv (fields : List (String × JsValue))

/-- JS property access `v[name]` as used on the parse result: a missing
field, or a field of a non-object, reads as `undefined`.  (Reading a
property of `null`/`undefined` throws a `TypeError` in JS; here that
access sits inside the same `try` as `JSON.parse`, and both the throw
and the `undefined` modelling land in the same empty-storage result, so
the model is outcome-faithful.) -/
def JsValue.getField : JsValue → String → JsValue
  | .objv fields, name =>
    match fields.find? (fun f => decide (f.1 = name)) with
    | some f => f.2
    | none => .undefinedv
  | _, _ => .undefinedv

/-- JS truthiness of a value. -/
def JsValue.truthy : JsValue → Bool
  | .undefinedv => false
  | .nullv => false
  | .boolv b => b
  | .numv n => !(decide (n = 0))
  | .strv s => !(decide (s = ""))
  | .arrv _ => true
  | .objv _ => true

/-- The in-memory empty storage `{ custom: [] }` (`defaultStorage`, and
the `{ ...defaultStorage }` copies returned on parse failure). -/
def emptyStorageJs : JsValue := .objv [("custom", .arrv [])]

/-- `JSON.stringify(defaultStorage, null, 2)`: the exact text written
when the file is created. -/
def defaultStorageText : String :=
  "\x7b\n  \"custom\": []\n\x7d"

/-- `ensureFile` from the source, acting on the content of the policy
file (`none` = the file does not exist): an absent file is created with
the serialized empty storage.  (The `mkdirSync` of the parent directory
has no observable effect at this level.) -/
def ensureFile (fileContent : Option String) : Option String :=
  match fileContent with
  | none => some defaultStorageText
  | some c => some c

/-- `loadStorage` from the source.  `JSON.parse` is an external builtin
and is passed in as `parseJs` (`Except.error ()` = the parse throws);
the `try`/`catch` and the `!parsed.custom` check are translated
directly.  The function returns the storage object used by the manager. -/
def loadStorage (parseJs : String → Except Unit JsValue)
    (fileContent : Option String) : JsValue :=
  let raw :=
    match ensureFile fileContent with
    | some c => c
    | none => ""
  match parseJs raw with
  | .error _ => emptyStorageJs
  | .ok parsed =>
    if (parsed.getField "custom").truthy then parsed else emptyStorageJs

/-- The rejecting group-admin predicate used for the C3 counterexample:
the lookup promise always rejects. -/
def rejectingLookup : String → Except Unit Bool := fun _ => .error ()

/-- Actor whose `isGroupAdmin` predicate rejects. -/
def c3Actor : ActorContext := ⟨5, some 100, false, true, false, some rejectingLookup⟩

/-- A custom rule set whose governing candidate carries a `groupadmin`
selector. -/
def c3State : PMState :=
  ⟨[⟨"ga", .group, ⟨.groupadmin, some "100"⟩, ⟨true, true, true⟩, 0, 1⟩], []⟩

/-- The group target the C3 scenario evaluates against. -/
def c3Target : TargetContext := ⟨.group, none, some "100"⟩

/-- The older of two default rules sharing the (global, everyone)
identity, with equal priority. -/
def c4RuleOld : PolicyRule := ⟨"old", .global, ⟨.everyone, none⟩, ⟨true, true, false⟩, 0, 1⟩

/-- The newer of the two duplicate default rules. -/
def c4RuleNew : PolicyRule := ⟨"new", .global, ⟨.everyone, none⟩, ⟨false, false, false⟩, 0, 2⟩

/-- The Boolean form of the `(scope, selector)` identity test used by
`updateRule`'s `findIndex` predicate, as a reusable filter predicate. -/
def identPred (scope : PermissionScope) (selector : PolicySelector)
    (r : PolicyRule) : Bool :=
  decide (r.scope = scope ∧ selectorsEqual r.selector selector)

/-- A model of `JSON.parse` for the C8 witness: it recognises exactly
the text `ensureFile` writes for a fresh file and rejects anything
else. -/
def freshFileParse : String → Except Unit JsValue := fun s =>
  if s = defaultStorageText then .ok emptyStorageJs else .error ()

/-! ### Generic facts about the stable-sort model -/

theorem mem_insertBy (bf : α → α → Bool) (x : α) (l : List α) (a : α) :
    a ∈ insertBy bf x l ↔ a = x ∨ a ∈ l := by
  induction l with
  | nil => simp [insertBy]
  | cons y ys ih =>
    cases h : bf y x with
    | true =>
      simp only [insertBy, h, if_true, List.mem_cons, ih]
      tauto
    | false =>
      simp [insertBy, h]

theorem insertBy_perm (bf : α → α → Bool) (x : α) (l : List α) :
    (insertBy bf x l).Perm (x :: l) := by
  induction l with
  | nil => simp [insertBy]
  | cons y ys ih =>
    by_cases h : bf y x = true
    · simp only [insertBy, h, if_true]
      exact (ih.cons y).trans (List.Perm.swap x y ys)
    · simp only [insertBy, h]
      simp [h]

theorem sortByDesc_perm (bf : α → α → Bool) (l : List α) :
    (sortByDesc bf l).Perm l := by
  induction l with
  | nil => simp [sortByDesc]
  | cons a l ih =>
    have : sortByDesc bf (a :: l) = insertBy bf a (sortByDesc bf l) := rfl
    rw [this]
    exact (insertBy_perm bf a (sortByDesc bf l)).trans (ih.cons a)

theorem mem_sortByDesc (bf : α → α → Bool) (l : List α) (a : α) :
    a ∈ sortByDesc bf l ↔ a ∈ l :=
  (sortByDesc_perm bf l).mem_iff

theorem bf_irrefl_of_asym {bf : α → α → Bool}
    (hasym : ∀ a b, bf a b = true → bf b a = false) (a : α) : bf a a = false := by
  cases h : bf a a with
  | false => rfl
  | true => have := hasym a a h; rw [h] at this; exact this

theorem pairwise_insertBy {bf : α → α → Bool}
    (hasym : ∀ a b, bf a b = true → bf b a = false)
    (htot : ∀ a b c, bf c a = true → bf c b = false → bf b a = true)
    (x : α) (l : List α) (h : l.Pairwise fun a b => bf b a = false) :
    (insertBy bf x l).Pairwise fun a b => bf b a = false := by
  induction l with
  | nil => simp [insertBy]
  | cons y ys ih =>
    rcases List.pairwise_cons.mp h with ⟨hy, hys⟩
    by_cases hbf : bf y x = true
    · simp only [insertBy, hbf, if_true]
      refine List.pairwise_cons.mpr ⟨?_, ih hys⟩
      intro z hz
      rcases (mem_insertBy bf x ys z).mp hz with rfl | hz'
      · exact hasym y z hbf
      · exact hy z hz'
    · have hbf' : bf y x = false := by
        cases h' : bf y x with
        | false => rfl
        | true => exact absurd h' hbf
      simp only [insertBy, hbf', Bool.false_eq_true, if_false]
      refine List.pairwise_cons.mpr ⟨?_, h⟩
      intro z hz
      rcases List.mem_cons.mp hz with rfl | hz'
      · exact hbf'
      · cases hzx : bf z x with
        | false => rfl
        | true => exact absurd (htot x y z hzx (hy z hz')) (by simp [hbf'])

theorem sortByDesc_pairwise {bf : α → α → Bool}
    (hasym : ∀ a b, bf a b = true → bf b a = false)
    (htot : ∀ a b c, bf c a = true → bf c b = false → bf b a = true)
    (l : List α) :
    (sortByDesc bf l).Pairwise fun a b => bf b a = false := by
  induction l with
  | nil => simp [sortByDesc]
  | cons a l ih =>
    have : sortByDesc bf (a :: l) = insertBy bf a (sortByDesc bf l) := rfl
    rw [this]
    exact pairwise_insertBy hasym htot a _ ih

theorem sortByDesc_head_max {bf : α → α → Bool}
    (hasym : ∀ a b, bf a b = true → bf b a = false)
    (x : α) (l : List α) (hmem : x ∈ l)
    (hmax : ∀ y ∈ l, y ≠ x → bf x y = true) :
    ∃ t, sortByDesc bf l = x :: t := by
  induction l with
  | nil => cases hmem
  | cons a l ih =>
    have hstep : sortByDesc bf (a :: l) = insertBy bf a (sortByDesc bf l) := rfl
    by_cases hax : a = x
    · subst hax
      rw [hstep]
      cases hsort : sortByDesc bf l with
      | nil => exact ⟨[], by simp [insertBy]⟩
      | cons y t =>
        have hy : y ∈ l := by
          have := (mem_sortByDesc bf l y).mp (by rw [hsort]; exact List.mem_cons_self y t)
          exact this
        have hyx : bf y a = false := by
          by_cases h' : y = a
          · subst h'; exact bf_irrefl_of_asym hasym y
          · exact hasym a y (hmax y (List.mem_cons_of_mem a hy) h')
        refine ⟨y :: t, ?_⟩
        simp [insertBy, hyx]
    · have hx : x ∈ l := by
        rcases List.mem_cons.mp hmem with h' | h'
        · exact absurd h'.symm hax
        · exact h'
      rcases ih hx (fun y hy hne => hmax y (List.mem_cons_of_mem a hy) hne) with ⟨t, ht⟩
      rw [hstep, ht]
      have hxa : bf x a = true := hmax a (List.mem_cons_self a l) (fun h => hax h)
      exact ⟨insertBy bf a t, by simp [insertBy, hxa]⟩

theorem ruleBefore_asym :
    ∀ a b : PolicyRule, ruleBefore a b = true → ruleBefore b a = false := by
  intro a b h
  simp only [ruleBefore, decide_eq_true_eq] at h
  simp only [ruleBefore, decide_eq_false_iff_not]
  omega

theorem ruleBefore_tot :
    ∀ a b c : PolicyRule, ruleBefore c a = true → ruleBefore c b = false →
      ruleBefore b a = true := by
  intro a b c h1 h2
  simp only [ruleBefore, decide_eq_true_eq, decide_eq_false_iff_not] at *
  omega

theorem createdAtBefore_asym :
    ∀ a b : PolicyRule, createdAtBefore a b = true → createdAtBefore b a = false := by
  intro a b h
  simp only [createdAtBefore, decide_eq_true_eq] at h
  simp only [createdAtBefore, decide_eq_false_iff_not]
  omega

theorem entryCreatedBefore_asym :
    ∀ a b : PolicyRule × Nat, entryCreatedBefore a b = true → entryCreatedBefore b a = false := by
  intro a b h
  simp only [entryCreatedBefore, decide_eq_true_eq] at h
  simp only [entryCreatedBefore, decide_eq_false_iff_not]
  omega

/-! ### Facts about the rule resolver -/

theorem findMatch_eq_some (actor : ActorContext) (target : TargetContext)
    (l : List PolicyRule) (r : PolicyRule)
    (h : findMatch actor target l = .ok (some r)) :
    ∃ l1 l2, l = l1 ++ r :: l2 ∧ matchesSelector r.selector actor target = .ok true ∧
      ∀ x ∈ l1, matchesSelector x.selector actor target = .ok false := by
  induction l with
  | nil => simp [findMatch] at h
  | cons a l ih =>
    cases hm : matchesSelector a.selector actor target with
    | error e => simp [findMatch, hm] at h
    | ok b =>
      cases b with
      | true =>
        have ha : a = r := by simpa [findMatch, hm] using h
        subst ha
        exact ⟨[], l, rfl, hm, by simp⟩
      | false =>
        have h' : findMatch actor target l = .ok (some r) := by
          simpa [findMatch, hm] using h
        rcases ih h' with ⟨l1, l2, rfl, hr, hall⟩
        refine ⟨a :: l1, l2, rfl, hr, ?_⟩
        intro x hx
        rcases List.mem_cons.mp hx with rfl | hx'
        · exact hm
        · exact hall x hx'

theorem findMatch_eq_none (actor : ActorContext) (target : TargetContext)
    (l : List PolicyRule)
    (h : ∀ x ∈ l, matchesSelector x.selector actor target = .ok false) :
    findMatch actor target l = .ok none := by
  induction l with
  | nil => rfl
  | cons a l ih =>
    have ha := h a (List.mem_cons_self a l)
    simp only [findMatch, ha]
    exact ih fun x hx => h x (List.mem_cons_of_mem a hx)

theorem pickRule_eq_findMatch (rules : List PolicyRule) (actor : ActorContext)
    (target : TargetContext) :
    pickRule rules actor target =
      findMatch actor target
        (sortRules (rules.filter fun r => decide (r.scope = target.scope))) := by
  unfold pickRule
  cases h : rules.filter fun r => decide (r.scope = target.scope) with
  | nil => simp [sortRules, sortByDesc, findMatch]
  | cons a l => simp

/-! ### Claim theorems -/

/-- Claim C1: for every actor, target and action, `isAllowed` first
resolves a governing rule among the custom rules; only if no custom rule
of the target's scope matches the actor (`pickRule` on the custom set
returns no rule) does it resolve among the default rules; if neither set
yields a matching rule it returns `false`; and whenever a rule is found,
the returned boolean is exactly that rule's permission value for the
requested action. -/
theorem claim_C1_isAllowed_fallback (st : PMState) (actor : ActorContext)
    (target : TargetContext) (action : PermissionAction) :
    (∀ r, pickRule st.custom actor target = .ok (some r) →
      isAllowed st actor target action = .ok (getPermission r.permissions action)) ∧
    (pickRule st.custom actor target = .ok none →
      ∀ r, pickRule st.defaults actor target = .ok (some r) →
        isAllowed st actor target action = .ok (getPermission r.permissions action)) ∧
    (pickRule st.custom actor target = .ok none →
      pickRule st.defaults actor target = .ok none →
      isAllowed st actor target action = .ok false) := by
  refine ⟨?_, ?_, ?_⟩
  · intro r h
    simp [isAllowed, h]
  · intro h r h2
    simp [isAllowed, h, h2]
  · intro h h2
    simp [isAllowed, h, h2]

/-- Witness for C1 at the spec's own example: no custom rule for the
personal scope, so `isAllowed` falls back to the default "everyone"
rule's `create` value. -/
theorem claim_C1_witness :
    isAllowed
      ⟨[], [⟨"default-personal-everyone", .personal, ⟨.everyone, none⟩, ⟨true, true, true⟩, 0, 0⟩]⟩
      ⟨5, none, false, true, false, none⟩ ⟨.personal, some "5", none⟩ .create = .ok true := by
  have h :=
    (claim_C1_isAllowed_fallback
      ⟨[], [⟨"default-personal-everyone", .personal, ⟨.everyone, none⟩, ⟨true, true, true⟩, 0, 0⟩]⟩
      ⟨5, none, false, true, false, none⟩ ⟨.personal, some "5", none⟩ .create).2.1
      rfl ⟨"default-personal-everyone", .personal, ⟨.everyone, none⟩, ⟨true, true, true⟩, 0, 0⟩ rfl
  simpa [getPermission] using h

/-- Claim C2: the rule resolver (a) keeps only rules whose scope equals
the target's scope and returns none if no rule remains, (b) orders the
remainder by priority descending with equal priorities ordered by
`createdAt` descending (the sorted list is a permutation of its input),
(c) returns the first rule in that order whose selector matches, (d)
returns none when no selector of the scoped rules matches, and (e) in
particular, of two scoped rules with the same priority, the one with the
larger `createdAt` governs. -/
theorem claim_C2_pickRule_order :
    (∀ (rules : List PolicyRule) (actor : ActorContext) (target : TargetContext),
      (∀ r ∈ rules, r.scope ≠ target.scope) → pickRule rules actor target = .ok none) ∧
    (∀ rules : List PolicyRule, (sortRules rules).Perm rules ∧
      (sortRules rules).Pairwise fun a b =>
        b.priority < a.priority ∨ (b.priority = a.priority ∧ b.createdAt ≤ a.createdAt)) ∧
    (∀ (rules : List PolicyRule) (actor : ActorContext) (target : TargetContext) r,
      pickRule rules actor target = .ok (some r) →
      ∃ l1 l2,
        sortRules (rules.filter fun x => decide (x.scope = target.scope)) = l1 ++ r :: l2 ∧
        matchesSelector r.selector actor target = .ok true ∧
        ∀ x ∈ l1, matchesSelector x.selector actor target = .ok false) ∧
    (∀ (rules : List PolicyRule) (actor : ActorContext) (target : TargetContext),
      (∀ r ∈ rules.filter (fun x => decide (x.scope = target.scope)),
        matchesSelector r.selector actor target = .ok false) →
      pickRule rules actor target = .ok none) ∧
    (∀ (rules : List PolicyRule) (actor : ActorContext) (target : TargetContext) (r1 r2 : PolicyRule),
      rules.filter (fun x => decide (x.scope = target.scope)) = [r1, r2] →
      r1.priority = r2.priority → r1.createdAt < r2.createdAt →
      matchesSelector r2.selector actor target = .ok true →
      pickRule rules actor target = .ok (some r2)) := by
  refine ⟨?_, ?_, ?_, ?_, ?_⟩
  · intro rules actor target h
    have hfil : (rules.filter fun r => decide (r.scope = target.scope)) = [] := by
      rw [List.filter_eq_nil_iff]
      intro a ha
      simp [h a ha]
    rw [pickRule_eq_findMatch, hfil]
    rfl
  · intro rules
    refine ⟨sortByDesc_perm _ _, ?_⟩
    have hpw := sortByDesc_pairwise ruleBefore_asym ruleBefore_tot rules
    refine hpw.imp ?_
    intro a b hab
    simp only [ruleBefore, decide_eq_false_iff_not] at hab
    omega
  · intro rules actor target r h
    rw [pickRule_eq_findMatch] at h
    exact findMatch_eq_some actor target _ r h
  · intro rules actor target h
    rw [pickRule_eq_findMatch]
    refine findMatch_eq_none actor target _ ?_
    intro x hx
    exact h x ((mem_sortByDesc _ _ x).mp hx)
  · intro rules actor target r1 r2 hfil hp hc hm2
    have hb : ruleBefore r2 r1 = true := by
      simp only [ruleBefore, decide_eq_true_eq]
      omega
    rw [pickRule_eq_findMatch, hfil]
    have hsort : sortRules [r1, r2] = [r2, r1] := by
      simp [sortRules, sortByDesc, insertBy, hb]
    rw [hsort]
    simp [findMatch, hm2]

/-- Witness for C2 at the priority-tie example: two scoped rules with
equal priority and `createdAt` 1 and 2; the later-created rule governs. -/
theorem claim_C2_witness :
    pickRule
      [⟨"a", .group, ⟨.everyone, none⟩, ⟨true, true, true⟩, 1, 1⟩,
       ⟨"b", .group, ⟨.everyone, none⟩, ⟨true, true, false⟩, 1, 2⟩]
      ⟨5, some 100, false, true, false, none⟩ ⟨.group, none, some "100"⟩ =
      .ok (some ⟨"b", .group, ⟨.everyone, none⟩, ⟨true, true, false⟩, 1, 2⟩) := by
  refine claim_C2_pickRule_order.2.2.2.2 _ _ _
    ⟨"a", .group, ⟨.everyone, none⟩, ⟨true, true, true⟩, 1, 1⟩
    ⟨"b", .group, ⟨.everyone, none⟩, ⟨true, true, false⟩, 1, 2⟩
    (by decide) (by decide) (by decide) (by decide)

/-- Claim C9: the selector matcher is total and fails closed: an unknown
selector tag never matches; `owner` returns false when the target has no
`ownerId`; `group_member` returns false when the target has no `groupId`
or the actor has no `groupId` — in all these cases it returns an
ordinary `false` rather than throwing; and every selector other than
`groupadmin` always returns an ordinary boolean (never an exception). -/
theorem claim_C9_matcher_fail_closed :
    (∀ (tag : String) (v : Option String) (actor : ActorContext) (target : TargetContext),
      matchesSelector ⟨.unknown tag, v⟩ actor target = .ok false) ∧
    (∀ (v : Option String) (actor : ActorContext) (scope : PermissionScope)
        (g : Option String),
      matchesSelector ⟨.owner, v⟩ actor ⟨scope, none, g⟩ = .ok false) ∧
    (∀ (v : Option String) (actor : ActorContext) (scope : PermissionScope)
        (o : Option String),
      matchesSelector ⟨.group_member, v⟩ actor ⟨scope, o, none⟩ = .ok false) ∧
    (∀ (v : Option String) (userId : Int) (gAdmin : Option (String → Except Unit Bool))
        (adm au ag : Bool) (scope : PermissionScope) (o g : Option String),
      matchesSelector ⟨.group_member, v⟩ ⟨userId, none, adm, au, ag, gAdmin⟩
        ⟨scope, o, g⟩ = .ok false) ∧
    (∀ (sel : PolicySelector) (actor : ActorContext) (target : TargetContext),
      sel.type ≠ .groupadmin → ∃ b, matchesSelector sel actor target = .ok b) := by
  refine ⟨?_, ?_, ?_, ?_, ?_⟩
  · intro tag v actor target
    rfl
  · intro v actor scope g
    rfl
  · intro v actor scope o
    rfl
  · intro v userId gAdmin adm au ag scope o g
    cases g <;> rfl
  · intro sel actor target hne
    obtain ⟨t, v⟩ := sel
    cases t with
    | admin => exact ⟨_, rfl⟩
    | allowlist_user => exact ⟨_, rfl⟩
    | everyone => exact ⟨_, rfl⟩
    | user => exact ⟨_, rfl⟩
    | group => exact ⟨_, rfl⟩
    | groupadmin => exact absurd rfl hne
    | owner => exact ⟨_, rfl⟩
    | group_member => exact ⟨_, rfl⟩
    | unknown tag => exact ⟨_, rfl⟩

/-- Witness for C9: a malformed selector tag read from the
human-editable policy file never matches, and a non-`groupadmin`
selector never throws. -/
theorem claim_C9_witness :
    matchesSelector ⟨.unknown "banana", some "x"⟩
      ⟨5, some 100, true, true, true, none⟩ ⟨.group, some "5", some "100"⟩ = .ok false ∧
    ∃ b, matchesSelector ⟨.owner, none⟩
      ⟨5, some 100, true, true, true, none⟩ ⟨.personal, none, none⟩ = .ok b :=
  ⟨claim_C9_matcher_fail_closed.1 "banana" (some "x") _ _,
   claim_C9_matcher_fail_closed.2.2.2.2 ⟨.owner, none⟩
     ⟨5, some 100, true, true, true, none⟩ ⟨.personal, none, none⟩ (by decide)⟩

/-- Claim C10: custom rules shadow default rules unconditionally: if a
custom rule governs (the custom `pickRule` returns it), `isAllowed`
returns that rule's permission value, and the outcome is the same for
every default rule set whatsoever — in particular for default sets
containing higher-priority matching rules; priorities are never compared
across the custom and default sets. -/
theorem claim_C10_custom_shadows_defaults (st : PMState) (actor : ActorContext)
    (target : TargetContext) (action : PermissionAction) (r : PolicyRule)
    (h : pickRule st.custom actor target = .ok (some r)) :
    isAllowed st actor target action = .ok (getPermission r.permissions action) ∧
    ∀ defaults2 : List PolicyRule,
      isAllowed ⟨st.custom, defaults2⟩ actor target action =
        .ok (getPermission r.permissions action) := by
  constructor
  · simp [isAllowed, h]
  · intro d2
    simp [isAllowed, h]

/-- Witness for C10: a matching custom rule with priority 0 denies
`remove` even though a matching default rule with priority 100 would
allow it. -/
theorem claim_C10_witness :
    isAllowed
      ⟨[⟨"c", .group, ⟨.everyone, none⟩, ⟨true, true, false⟩, 0, 5⟩],
       [⟨"d", .group, ⟨.everyone, none⟩, ⟨true, true, true⟩, 100, 0⟩]⟩
      ⟨5, some 100, false, true, false, none⟩ ⟨.group, none, some "100"⟩ .remove =
      .ok false := by
  have h :=
    (claim_C10_custom_shadows_defaults
      ⟨[⟨"c", .group, ⟨.everyone, none⟩, ⟨true, true, false⟩, 0, 5⟩],
       [⟨"d", .group, ⟨.everyone, none⟩, ⟨true, true, true⟩, 100, 0⟩]⟩
      ⟨5, some 100, false, true, false, none⟩ ⟨.group, none, some "100"⟩ .remove
      ⟨"c", .group, ⟨.everyone, none⟩, ⟨true, true, false⟩, 0, 5⟩ (by decide)).1
  simpa [getPermission] using h


/-- Counterexample to claim C3 as stated: with an actor whose
`isGroupAdmin` predicate rejects and a rule set whose governing
candidate has a `groupadmin` selector, `isAllowed` does NOT resolve to
`false` — it propagates the exception to its caller (`Except.error`),
because neither `matchesSelector` nor `isAllowed` guards the awaited
predicate with any try/catch. -/
theorem claim_C3_counterexample :
    isAllowed c3State c3Actor c3Target .read = .error () ∧
    isAllowed c3State c3Actor c3Target .read ≠ .ok false := by
  constructor
  · rfl
  · decide

/-- Claim C3 (amended): the policy module does not absorb predicate
failures.  If the `isGroupAdmin` predicate rejects for the consulted
group id, the `groupadmin` selector evaluation rethrows, and an error
produced while picking a custom rule propagates out of `isAllowed` to
its caller.  When instead the predicate resolves `false` — which is what
the predicate actually injected by the host (its group-admin lookup
catches transport failures internally and resolves `false`) does on a
lookup failure — the `groupadmin` selector simply does not match, so
authorization degrades to deny without any exception. -/
theorem claim_C3_amended (actor : ActorContext) (target : TargetContext)
    (pred : String → Except Unit Bool) (g : String) :
    (actor.isGroupAdmin = some pred → g ≠ "" → pred g = .error () →
      matchesSelector ⟨.groupadmin, some g⟩ actor target = .error ()) ∧
    (∀ (st : PMState) (action : PermissionAction),
      pickRule st.custom actor target = .error () →
      isAllowed st actor target action = .error ()) ∧
    (actor.isGroupAdmin = some pred → g ≠ "" → pred g = .ok false →
      matchesSelector ⟨.groupadmin, some g⟩ actor target = .ok false) := by
  refine ⟨?_, ?_, ?_⟩
  · intro hga hg hpred
    simp [matchesSelector, hga, Option.orElse, hg, hpred]
  · intro st action h
    simp [isAllowed, h]
  · intro hga hg hpred
    simp [matchesSelector, hga, Option.orElse, hg, hpred]

/-- Witness for the amended C3: the concrete rejecting scenario, pushed
through the amended theorem. -/
theorem claim_C3_amended_witness :
    matchesSelector ⟨.groupadmin, some "100"⟩ c3Actor c3Target = .error () :=
  (claim_C3_amended c3Actor c3Target rejectingLookup "100").1 rfl (by decide) rfl


/-- Claim C4 evaluated at its failing input: two default rules with the
same (scope, selector) identity, equal priority, and `createdAt` 1
versus 2.  The construction-time deduplication keeps the NEWER rule
(`createdAt` 2), not the older one: the `keep = 'oldest'` branch of
`dedupeRules` orders candidates with `sortRules`, which places the
larger `createdAt` first on priority ties, and the pass keeps the first
occurrence of each key. -/
theorem claim_C4_dedupe_keeps_newest :
    dedupeRules [c4RuleOld, c4RuleNew] .oldest = [c4RuleNew] ∧
    (initState [] [c4RuleOld, c4RuleNew]).defaults = [c4RuleNew] := by
  constructor
  · decide
  · decide

/-! ### List-indexing facts used by the upsert and removal paths -/

theorem mem_of_get?_eq_some {l : List α} {i : Nat} {a : α} (h : l.get? i = some a) :
    a ∈ l := by
  induction l generalizing i with
  | nil => simp [List.get?] at h
  | cons x l ih =>
    cases i with
    | zero =>
      have : x = a := by simpa [List.get?] using h
      subst this
      exact List.mem_cons_self _ _
    | succ j => exact List.mem_cons_of_mem _ (ih h)

theorem mem_set_self {l : List α} {i : Nat} {a b : α} (h : l.get? i = some a) :
    b ∈ l.set i b := by
  induction l generalizing i with
  | nil => simp [List.get?] at h
  | cons x l ih =>
    cases i with
    | zero => exact List.mem_cons_self _ _
    | succ j => exact List.mem_cons_of_mem _ (ih h)

theorem find?_eq_head?_filter (p : α → Bool) (l : List α) :
    l.find? p = (l.filter p).head? := by
  induction l with
  | nil => rfl
  | cons a l ih =>
    cases h : p a with
    | true =>
      rw [List.find?_cons, List.filter_cons, h]
      simp
    | false =>
      rw [List.find?_cons, List.filter_cons, h]
      simp

theorem filter_set_singleton {p : α → Bool} {l : List α} {i : Nat} {ex upd : α}
    (hget : l.get? i = some ex) (hpex : p ex = true) (hpupd : p upd = true)
    (hfil : l.filter p = [ex]) :
    (l.set i upd).filter p = [upd] := by
  induction l generalizing i with
  | nil => simp [List.get?] at hget
  | cons a l ih =>
    cases i with
    | zero =>
      have ha : a = ex := by simpa [List.get?] using hget
      subst ha
      cases hpa : p a with
      | false => simp [hpa] at hpex
      | true =>
        have hfl : l.filter p = [] := by
          simpa [List.filter_cons, hpa] using hfil
        show (upd :: l).filter p = [upd]
        simp [List.filter_cons, hpupd, hfl]
    | succ j =>
      have hget' : l.get? j = some ex := hget
      cases hpa : p a with
      | true =>
        exfalso
        have h2 : a = ex ∧ l.filter p = [] := by
          simpa [List.filter_cons, hpa] using hfil
        have hmem : ex ∈ l.filter p :=
          List.mem_filter.mpr ⟨mem_of_get?_eq_some hget', hpex⟩
        rw [h2.2] at hmem
        cases hmem
      | false =>
        have hfl : l.filter p = [ex] := by simpa [List.filter_cons, hpa] using hfil
        show (a :: l.set j upd).filter p = [upd]
        simp [List.filter_cons, hpa, ih hget' hfl]

/-! ### Facts about the `(scope, selector)` identity lookup -/

theorem selectorsEqual_refl (a : PolicySelector) : selectorsEqual a a := ⟨rfl, rfl⟩

theorem findRuleEntry_some {scope : PermissionScope} {selector : PolicySelector}
    {l : List PolicyRule} {i : Nat} {r : PolicyRule}
    (h : findRuleEntry scope selector l = some (i, r)) :
    l.get? i = some r ∧ r.scope = scope ∧ selectorsEqual r.selector selector := by
  induction l generalizing i with
  | nil => simp [findRuleEntry] at h
  | cons a l ih =>
    by_cases hp : a.scope = scope ∧ selectorsEqual a.selector selector
    · simp only [findRuleEntry, if_pos hp] at h
      injection h with h2
      injection h2 with hi hr
      subst hi
      subst hr
      exact ⟨rfl, hp.1, hp.2⟩
    · simp only [findRuleEntry, if_neg hp] at h
      rw [Option.map_eq_some'] at h
      rcases h with ⟨⟨j, r'⟩, hj, heq⟩
      injection heq with hi hr
      subst hi
      subst hr
      rcases ih hj with ⟨hget, hsc, hsel⟩
      exact ⟨hget, hsc, hsel⟩

theorem findRuleEntry_none {scope : PermissionScope} {selector : PolicySelector}
    {l : List PolicyRule}
    (h : findRuleEntry scope selector l = none) :
    ∀ r ∈ l, ¬(r.scope = scope ∧ selectorsEqual r.selector selector) := by
  induction l with
  | nil =>
    intro r hr
    cases hr
  | cons a l ih =>
    by_cases hp : a.scope = scope ∧ selectorsEqual a.selector selector
    · simp [findRuleEntry, if_pos hp] at h
    · intro r hr
      rcases List.mem_cons.mp hr with rfl | hr'
      · exact hp
      · have h' : findRuleEntry scope selector l = none := by
          simp only [findRuleEntry, if_neg hp, Option.map_eq_none'] at h
          exact h
        exact ih h' r hr'

/-- A governing rule that strictly precedes every other scoped custom
rule is what `isAllowed` returns, whatever the defaults are. -/
theorem isAllowed_of_strict_top (st' : PMState) (actor : ActorContext)
    (target : TargetContext) (r : PolicyRule)
    (hmem : r ∈ st'.custom)
    (hscope : r.scope = target.scope)
    (hmatch : matchesSelector r.selector actor target = .ok true)
    (htop : ∀ y ∈ st'.custom, y.scope = target.scope → y ≠ r → ruleBefore r y = true) :
    ∀ action, isAllowed st' actor target action = .ok (getPermission r.permissions action) := by
  intro action
  have hmem2 : r ∈ st'.custom.filter fun x => decide (x.scope = target.scope) :=
    List.mem_filter.mpr ⟨hmem, by simp [hscope]⟩
  have hmax : ∀ y ∈ st'.custom.filter fun x => decide (x.scope = target.scope),
      y ≠ r → ruleBefore r y = true := by
    intro y hy hne
    have hy2 := List.mem_filter.mp hy
    exact htop y hy2.1 (by simpa using hy2.2) hne
  rcases sortByDesc_head_max ruleBefore_asym r _ hmem2 hmax with ⟨t, ht⟩
  have hpick : pickRule st'.custom actor target = .ok (some r) := by
    rw [pickRule_eq_findMatch]
    show findMatch actor target
      (sortByDesc ruleBefore (st'.custom.filter fun x => decide (x.scope = target.scope))) = _
    rw [ht]
    simp [findMatch, hmatch]
  simp [isAllowed, hpick]

theorem setRulePermissions_fields (scope : PermissionScope) (selector : PolicySelector)
    (priorityArg : Option Int) (perms : Permissions) (freshId : String) (now : Int)
    (st : PMState) {r : PolicyRule} {c : Bool} {st' : PMState}
    (heq : setRulePermissions scope selector priorityArg perms freshId now st = ((r, c), st')) :
    r.permissions = perms ∧ r.createdAt = now := by
  cases hf : findRuleEntry scope selector st.custom with
  | some entry =>
    simp only [setRulePermissions, updateRule, hf] at heq
    injection heq with h1 h2
    injection h1 with hr hc
    subst hr
    exact ⟨rfl, rfl⟩
  | none =>
    simp only [setRulePermissions, updateRule, hf] at heq
    injection heq with h1 h2
    injection h1 with hr hc
    subst hr
    exact ⟨rfl, rfl⟩

theorem setRulePermissions_ident_filter (scope : PermissionScope) (selector : PolicySelector)
    (priorityArg : Option Int) (perms : Permissions) (freshId : String) (now : Int)
    (st : PMState) {r : PolicyRule} {c : Bool} {st' : PMState}
    (hone : (st.custom.filter (identPred scope selector)).length ≤ 1)
    (heq : setRulePermissions scope selector priorityArg perms freshId now st = ((r, c), st')) :
    st'.custom.filter (identPred scope selector) = [r] := by
  cases hf : findRuleEntry scope selector st.custom with
  | none =>
    simp only [setRulePermissions, updateRule, hf] at heq
    injection heq with h1 hst
    injection h1 with hr hc
    subst hr
    subst hst
    have hnil : st.custom.filter (identPred scope selector) = [] := by
      rw [List.filter_eq_nil_iff]
      intro x hx
      simp only [identPred, decide_eq_true_eq]
      exact findRuleEntry_none hf x hx
    show (st.custom ++ [_]).filter _ = _
    rw [List.filter_append, hnil]
    simp [identPred, selectorsEqual_refl]
  | some entry =>
    obtain ⟨i, ex⟩ := entry
    rcases findRuleEntry_some hf with ⟨hget, hsc, hsel⟩
    simp only [setRulePermissions, updateRule, hf] at heq
    injection heq with h1 hst
    injection h1 with hr hc
    subst hr
    subst hst
    have hpex : identPred scope selector ex = true := by
      simp [identPred, hsc, hsel]
    have hmem : ex ∈ st.custom.filter (identPred scope selector) :=
      List.mem_filter.mpr ⟨mem_of_get?_eq_some hget, hpex⟩
    have hfil : st.custom.filter (identPred scope selector) = [ex] := by
      cases hl : st.custom.filter (identPred scope selector) with
      | nil =>
        rw [hl] at hmem
        cases hmem
      | cons b t =>
        cases t with
        | nil =>
          rw [hl] at hmem
          have hbe : ex = b := List.mem_singleton.mp hmem
          subst hbe
          rfl
        | cons d u =>
          rw [hl] at hone
          simp at hone
    refine filter_set_singleton hget hpex ?_ hfil
    simp [identPred, hsc, hsel]

/-- Claim C5: `setRulePermissions` upserts by (scope, selector)
identity.  (a) If a custom rule with that identity exists it is updated
in place — same id, refreshed `createdAt`, the caller's permission map,
the omitted priority keeping the existing rule's priority — and
`created = false` is returned.  (b) If none exists a new rule is
created: its permission baseline is the per-scope default template with
the caller's explicit values applied on top (for a full map this is the
caller's map), an omitted priority falls back to the default-priority
lookup, and `created = true` is returned.  (c) A set followed
immediately by `isAllowed` with a matching actor/target (the clock has
advanced past every stored rule and no other rule of the scope
out-prioritises the upserted one) reproduces exactly the permission map
just set.  (d) Setting twice for the same identity leaves exactly one
custom rule for it, carrying the second write's permissions and
timestamp. -/
theorem claim_C5_setRulePermissions (scope : PermissionScope) (selector : PolicySelector)
    (priorityArg : Option Int) (perms : Permissions) (freshId : String) (now : Int)
    (st : PMState) :
    (∀ (i : Nat) (ex r : PolicyRule) (c : Bool) (st' : PMState),
      findRuleEntry scope selector st.custom = some (i, ex) →
      setRulePermissions scope selector priorityArg perms freshId now st = ((r, c), st') →
      c = false ∧ r.id = ex.id ∧ r.scope = scope ∧ r.selector = ex.selector ∧
        r.createdAt = now ∧ r.permissions = perms ∧
        r.priority = priorityArg.getD ex.priority ∧
        st'.custom = st.custom.set i r ∧ st'.defaults = st.defaults) ∧
    (∀ (r : PolicyRule) (c : Bool) (st' : PMState),
      findRuleEntry scope selector st.custom = none →
      setRulePermissions scope selector priorityArg perms freshId now st = ((r, c), st') →
      c = true ∧ r.id = freshId ∧ r.scope = scope ∧ r.selector = selector ∧
        r.createdAt = now ∧
        r.permissions = sanitizePermissions ((fun _ => perms) (defaultPermissionTemplates scope)) ∧
        r.permissions = perms ∧
        r.priority = priorityArg.getD (resolvePriority st.defaults scope selector) ∧
        st'.custom = st.custom ++ [r] ∧ st'.defaults = st.defaults) ∧
    (∀ (r : PolicyRule) (c : Bool) (st' : PMState) (actor : ActorContext)
        (target : TargetContext),
      setRulePermissions scope selector priorityArg perms freshId now st = ((r, c), st') →
      target.scope = scope →
      matchesSelector r.selector actor target = .ok true →
      (∀ x ∈ st.custom, x.createdAt < now) →
      (∀ x ∈ st.custom, x.scope = scope → x.priority ≤ r.priority) →
      (isAllowed st' actor target .read = .ok perms.read ∧
       isAllowed st' actor target .create = .ok perms.create ∧
       isAllowed st' actor target .remove = .ok perms.remove)) ∧
    (∀ (priorityArg2 : Option Int) (perms2 : Permissions) (freshId2 : String) (now2 : Int)
        (r1 : PolicyRule) (c1 : Bool) (st1 : PMState)
        (r2 : PolicyRule) (c2 : Bool) (st2 : PMState),
      (st.custom.filter (identPred scope selector)).length ≤ 1 →
      setRulePermissions scope selector priorityArg perms freshId now st = ((r1, c1), st1) →
      setRulePermissions scope selector priorityArg2 perms2 freshId2 now2 st1 = ((r2, c2), st2) →
      st2.custom.filter (identPred scope selector) = [r2] ∧
        r2.permissions = perms2 ∧ r2.createdAt = now2) := by
  refine ⟨?_, ?_, ?_, ?_⟩
  · intro i ex r c st' hf heq
    rcases findRuleEntry_some hf with ⟨hget, hsc, hsel⟩
    simp only [setRulePermissions, updateRule, hf] at heq
    injection heq with h1 hst
    injection h1 with hr hc
    subst hr
    subst hc
    subst hst
    exact ⟨rfl, rfl, hsc, rfl, rfl, rfl, rfl, rfl, rfl⟩
  · intro r c st' hf heq
    simp only [setRulePermissions, updateRule, hf] at heq
    injection heq with h1 hst
    injection h1 with hr hc
    subst hr
    subst hc
    subst hst
    exact ⟨rfl, rfl, rfl, rfl, rfl, rfl, rfl, rfl, rfl, rfl⟩
  · intro r c st' actor target heq htarget hmatch hclock hprio
    subst htarget
    cases hf : findRuleEntry target.scope selector st.custom with
    | some entry =>
      obtain ⟨i, ex⟩ := entry
      rcases findRuleEntry_some hf with ⟨hget, hsc, hsel⟩
      simp only [setRulePermissions, updateRule, hf] at heq
      injection heq with h1 hst
      injection h1 with hr hc
      subst hr
      subst hst
      set upd : PolicyRule :=
        { ex with
          permissions := sanitizePermissions perms
          priority := priorityArg.getD ex.priority
          createdAt := now } with hupd
      have hall := isAllowed_of_strict_top ⟨st.custom.set i upd, st.defaults⟩ actor target upd
        (mem_set_self hget) hsc hmatch ?_
      · exact ⟨hall .read, hall .create, hall .remove⟩
      · intro y hy hys hne
        rcases List.mem_or_eq_of_mem_set hy with hy' | rfl
        · have h1 : y.createdAt < now := hclock y hy'
          have h2 : y.priority ≤ upd.priority := hprio y hy' hys
          have h3 : upd.createdAt = now := rfl
          have h4 : upd.priority = priorityArg.getD ex.priority := rfl
          simp only [ruleBefore, decide_eq_true_eq]
          omega
        · exact absurd rfl hne
    | none =>
      simp only [setRulePermissions, updateRule, hf] at heq
      injection heq with h1 hst
      injection h1 with hr hc
      subst hr
      subst hst
      set newR : PolicyRule :=
        { id := freshId
          scope := target.scope
          selector := selector
          permissions := sanitizePermissions perms
          priority := priorityArg.getD (resolvePriority st.defaults target.scope selector)
          createdAt := now } with hnewR
      have hall := isAllowed_of_strict_top ⟨st.custom ++ [newR], st.defaults⟩ actor target newR
        (List.mem_append_right _ (List.mem_singleton.mpr rfl)) rfl hmatch ?_
      · exact ⟨hall .read, hall .create, hall .remove⟩
      · intro y hy hys hne
        rcases List.mem_append.mp hy with hy' | hy'
        · have h1 : y.createdAt < now := hclock y hy'
          have h2 : y.priority ≤ newR.priority := hprio y hy' hys
          have h3 : newR.createdAt = now := rfl
          have h4 : newR.priority =
            priorityArg.getD (resolvePriority st.defaults target.scope selector) := rfl
          simp only [ruleBefore, decide_eq_true_eq]
          omega
        · exact absurd (List.mem_singleton.mp hy') hne
  · intro pr2 perms2 f2 n2 r1 c1 st1 r2 c2 st2 hone heq1 heq2
    have hfil1 := setRulePermissions_ident_filter scope selector priorityArg perms freshId now
      st hone heq1
    have hone2 : (st1.custom.filter (identPred scope selector)).length ≤ 1 := by
      rw [hfil1]
      simp
    have hfil2 := setRulePermissions_ident_filter scope selector pr2 perms2 f2 n2
      st1 hone2 heq2
    have hfields := setRulePermissions_fields scope selector pr2 perms2 f2 n2 st1 heq2
    exact ⟨hfil2, hfields.1, hfields.2⟩

/-- Witness for C5: on an empty store, setting (personal, user "5") to
read/¬create/remove and immediately evaluating `isAllowed` for the
matching actor reproduces the map just set. -/
theorem claim_C5_witness :
    isAllowed
      (setRulePermissions .personal ⟨.user, some "5"⟩ none ⟨true, false, true⟩ "id1" 10
        ⟨[], []⟩).2
      ⟨5, none, false, true, false, none⟩ ⟨.personal, some "5", none⟩ .remove = .ok true := by
  have h :=
    ((claim_C5_setRulePermissions .personal ⟨.user, some "5"⟩ none ⟨true, false, true⟩ "id1" 10
        ⟨[], []⟩).2.2.1 _ _ _ ⟨5, none, false, true, false, none⟩ ⟨.personal, some "5", none⟩
      rfl rfl (by decide) (by decide) (by decide)).2.2
  exact h

theorem ruleKey_eq_of_ident {scope : PermissionScope} {selector : PolicySelector}
    {x : PolicyRule} (h1 : x.scope = scope) (h2 : selectorsEqual x.selector selector) :
    ruleKey x.scope x.selector = ruleKey scope selector := by
  rcases h2 with ⟨ht, hv⟩
  simp [ruleKey, h1, ht, hv]

theorem resolvePriority_of_filter_singleton {defaults : List PolicyRule}
    {scope : PermissionScope} {selector : PolicySelector} {d : PolicyRule}
    (h : defaults.filter
      (fun x => decide (ruleKey x.scope x.selector = ruleKey scope selector)) = [d]) :
    resolvePriority defaults scope selector = d.priority := by
  unfold resolvePriority
  rw [find?_eq_head?_filter, List.filter_reverse, h]
  rfl

theorem resolvePriority_of_no_match {defaults : List PolicyRule}
    {scope : PermissionScope} {selector : PolicySelector}
    (h : ∀ d ∈ defaults, ruleKey d.scope d.selector ≠ ruleKey scope selector) :
    resolvePriority defaults scope selector = 0 := by
  unfold resolvePriority
  rw [find?_eq_head?_filter, List.filter_reverse]
  have hnil : defaults.filter
      (fun x => decide (ruleKey x.scope x.selector = ruleKey scope selector)) = [] := by
    rw [List.filter_eq_nil_iff]
    intro a ha
    simp [h a ha]
  rw [hnil]
  rfl

/-- Claim C6: `addCustomRule` assigns the supplied fresh id and current
timestamp; an omitted priority resolves through the default-priority
lookup — the priority of the (unique) default rule sharing the (scope,
selector) identity key, or 0 when no default shares it — while a
supplied priority is used as-is; and it removes every stored custom rule
with the same identity key before appending the new rule, so afterwards
exactly one custom rule carries that identity and it holds exactly the
new rule's fields. -/
theorem claim_C6_addCustomRule (input : NewRuleInput) (freshId : String) (now : Int)
    (st : PMState) :
    ∀ (r : PolicyRule) (st' : PMState),
      addCustomRule input freshId now st = (r, st') →
      r.id = freshId ∧ r.createdAt = now ∧ r.scope = input.scope ∧
      r.selector = input.selector ∧ r.permissions = input.permissions ∧
      (∀ p, input.priority = some p → r.priority = p) ∧
      (input.priority = none →
        r.priority = resolvePriority st.defaults input.scope input.selector) ∧
      (∀ d, input.priority = none →
        st.defaults.filter (fun x =>
          decide (ruleKey x.scope x.selector = ruleKey input.scope input.selector)) = [d] →
        r.priority = d.priority) ∧
      (input.priority = none →
        (∀ d ∈ st.defaults, ruleKey d.scope d.selector ≠ ruleKey input.scope input.selector) →
        r.priority = 0) ∧
      st'.custom = (st.custom.filter fun ex =>
        !(decide (ruleKey ex.scope ex.selector = ruleKey input.scope input.selector))) ++ [r] ∧
      st'.custom.filter (identPred input.scope input.selector) = [r] ∧
      st'.defaults = st.defaults := by
  intro r st' heq
  simp only [addCustomRule] at heq
  injection heq with hr hst
  subst hr
  subst hst
  refine ⟨rfl, rfl, rfl, rfl, rfl, ?_, ?_, ?_, ?_, rfl, ?_, rfl⟩
  · intro p hp
    simp [hp]
  · intro hp
    simp [hp]
  · intro d hp hfil
    simp only [hp, Option.getD_none]
    exact resolvePriority_of_filter_singleton hfil
  · intro hp hno
    simp only [hp, Option.getD_none]
    exact resolvePriority_of_no_match hno
  · rw [List.filter_append]
    have h1 : (st.custom.filter fun ex =>
        !(decide (ruleKey ex.scope ex.selector = ruleKey input.scope input.selector))).filter
        (identPred input.scope input.selector) = [] := by
      rw [List.filter_eq_nil_iff]
      intro a ha
      have hkey := List.of_mem_filter ha
      simp only [Bool.not_eq_true', decide_eq_false_iff_not] at hkey
      simp only [identPred, decide_eq_true_eq]
      rintro ⟨hsc, hsel⟩
      exact hkey (ruleKey_eq_of_ident hsc hsel)
    rw [h1]
    simp [identPred, selectorsEqual_refl]

/-- Witness for C6: adding a (group, everyone) rule with omitted
priority, while a default with priority 7 shares the identity and a
custom rule with the same identity already exists: the new rule inherits
priority 7 and is the only custom rule left for the identity. -/
theorem claim_C6_witness :
    (addCustomRule ⟨.group, ⟨.everyone, none⟩, ⟨true, true, true⟩, none⟩ "fresh" 9
      ⟨[⟨"x", .group, ⟨.everyone, none⟩, ⟨false, false, false⟩, 3, 1⟩],
       [⟨"d", .group, ⟨.everyone, none⟩, ⟨true, true, true⟩, 7, 0⟩]⟩).1.priority = 7 ∧
    (addCustomRule ⟨.group, ⟨.everyone, none⟩, ⟨true, true, true⟩, none⟩ "fresh" 9
      ⟨[⟨"x", .group, ⟨.everyone, none⟩, ⟨false, false, false⟩, 3, 1⟩],
       [⟨"d", .group, ⟨.everyone, none⟩, ⟨true, true, true⟩, 7, 0⟩]⟩).2.custom.filter
      (identPred .group ⟨.everyone, none⟩) =
      [(addCustomRule ⟨.group, ⟨.everyone, none⟩, ⟨true, true, true⟩, none⟩ "fresh" 9
        ⟨[⟨"x", .group, ⟨.everyone, none⟩, ⟨false, false, false⟩, 3, 1⟩],
         [⟨"d", .group, ⟨.everyone, none⟩, ⟨true, true, true⟩, 7, 0⟩]⟩).1] := by
  have h := claim_C6_addCustomRule ⟨.group, ⟨.everyone, none⟩, ⟨true, true, true⟩, none⟩ "fresh" 9
    ⟨[⟨"x", .group, ⟨.everyone, none⟩, ⟨false, false, false⟩, 3, 1⟩],
     [⟨"d", .group, ⟨.everyone, none⟩, ⟨true, true, true⟩, 7, 0⟩]⟩ _ _ rfl
  refine ⟨?_, h.2.2.2.2.2.2.2.2.2.2.1⟩
  have h8 := h.2.2.2.2.2.2.2.1 ⟨"d", .group, ⟨.everyone, none⟩, ⟨true, true, true⟩, 7, 0⟩
    rfl (by decide)
  exact h8

/-! ### Facts about the enumerated custom list used by `removeRules` -/

theorem enumFrom_map_fst (k : Nat) (l : List PolicyRule) :
    (enumFrom k l).map (fun p => p.1) = l := by
  induction l generalizing k with
  | nil => rfl
  | cons a l ih => simp [enumFrom, ih]

theorem mem_enumFrom_fst {k : Nat} {l : List PolicyRule} {p : PolicyRule × Nat}
    (h : p ∈ enumFrom k l) : p.1 ∈ l := by
  have h2 := List.mem_map_of_mem (fun q : PolicyRule × Nat => q.1) h
  rwa [enumFrom_map_fst] at h2

theorem enumFrom_idx_ge {k : Nat} {l : List PolicyRule} {p : PolicyRule × Nat}
    (h : p ∈ enumFrom k l) : k ≤ p.2 := by
  induction l generalizing k with
  | nil => cases h
  | cons a l ih =>
    rcases List.mem_cons.mp h with rfl | h'
    · exact Nat.le_refl _
    · exact Nat.le_of_succ_le (ih h')

theorem enumFrom_idx_inj {k : Nat} {l : List PolicyRule} {p q : PolicyRule × Nat}
    (hp : p ∈ enumFrom k l) (hq : q ∈ enumFrom k l) (hidx : p.2 = q.2) : p = q := by
  induction l generalizing k with
  | nil => cases hp
  | cons a l ih =>
    rcases List.mem_cons.mp hp with rfl | hp' <;> rcases List.mem_cons.mp hq with rfl | hq'
    · rfl
    · exfalso
      have h1 := enumFrom_idx_ge hq'
      have h2 : k = q.2 := hidx
      omega
    · exfalso
      have h1 := enumFrom_idx_ge hp'
      have h2 : p.2 = k := hidx
      omega
    · exact ih hp' hq'

theorem enumFrom_two_mem_count {k : Nat} {l : List PolicyRule} {x : PolicyRule} {i j : Nat}
    (hi : (x, i) ∈ enumFrom k l) (hj : (x, j) ∈ enumFrom k l) (hij : i ≠ j) :
    2 ≤ l.count x := by
  induction l generalizing k with
  | nil => cases hi
  | cons a l ih =>
    rcases List.mem_cons.mp hi with hh | ht
    · injection hh with hx hk
      subst hx
      subst hk
      rcases List.mem_cons.mp hj with hh2 | ht2
      · injection hh2 with hx2 hk2
        exact absurd hk2.symm hij
      · have hxl : x ∈ l := mem_enumFrom_fst ht2
        rw [List.count_cons_self]
        have hpos := List.count_pos_iff.mpr hxl
        omega
    · rcases List.mem_cons.mp hj with hh2 | ht2
      · injection hh2 with hx2 hk2
        subst hx2
        subst hk2
        have hxl : x ∈ l := mem_enumFrom_fst ht
        rw [List.count_cons_self]
        have hpos := List.count_pos_iff.mpr hxl
        omega
      · have h2 := ih ht ht2
        rw [List.count_cons]
        omega

theorem enumFrom_filter_fst_map (pred : PolicyRule → Bool) (k : Nat) (l : List PolicyRule) :
    ((enumFrom k l).filter (fun p => pred p.1)).map (fun p => p.1) = l.filter pred := by
  induction l generalizing k with
  | nil => rfl
  | cons a l ih =>
    cases h : pred a with
    | true => simp [enumFrom, List.filter_cons, h, ih]
    | false => simp [enumFrom, List.filter_cons, h, ih]

theorem enumFrom_filter_ne_idx (k i : Nat) (l : List PolicyRule) :
    ((enumFrom k l).filter (fun p => !(p.2 == k + i))).map (fun p => p.1) =
      l.eraseIdx i := by
  induction l generalizing k i with
  | nil => rfl
  | cons a l ih =>
    cases i with
    | zero =>
      have hhead : (!(((a, k) : PolicyRule × Nat).2 == k + 0)) = false := by simp
      have htail : (enumFrom (k + 1) l).filter (fun p => !(p.2 == k + 0)) =
          enumFrom (k + 1) l := by
        rw [List.filter_eq_self]
        intro p hp
        have hge := enumFrom_idx_ge hp
        simp only [Bool.not_eq_true', beq_eq_false_iff_ne, ne_eq]
        omega
      simp only [enumFrom, List.filter_cons, hhead, Bool.false_eq_true, if_false]
      rw [htail, enumFrom_map_fst]
      rfl
    | succ j =>
      have hhead : (!(((a, k) : PolicyRule × Nat).2 == k + (j + 1))) = true := by
        simp only [Bool.not_eq_true', beq_eq_false_iff_ne, ne_eq]
        omega
      simp only [enumFrom, List.filter_cons, hhead, if_true, List.map_cons]
      have harith : k + (j + 1) = (k + 1) + j := by omega
      rw [harith, ih]
      rfl

theorem enumFrom_filter_eq_idx {k i : Nat} {l : List PolicyRule} {x : PolicyRule}
    (hmem : (x, k + i) ∈ enumFrom k l) :
    (enumFrom k l).filter (fun p => p.2 == k + i) = [(x, k + i)] := by
  induction l generalizing k i with
  | nil => cases hmem
  | cons a l ih =>
    cases i with
    | zero =>
      have hx : x = a := by
        rcases List.mem_cons.mp hmem with hh | ht
        · exact congrArg Prod.fst hh
        · exfalso
          have hge := enumFrom_idx_ge ht
          simp only at hge
          omega
      subst hx
      have hhead : ((((x, k) : PolicyRule × Nat).2) == k + 0) = true := by simp
      have htail : (enumFrom (k + 1) l).filter (fun p => p.2 == k + 0) = [] := by
        rw [List.filter_eq_nil_iff]
        intro p hp
        have hge := enumFrom_idx_ge hp
        simp only [beq_iff_eq]
        omega
      simp only [enumFrom, List.filter_cons, hhead, if_true, htail]
      simp
    | succ j =>
      have hmem' : (x, (k + 1) + j) ∈ enumFrom (k + 1) l := by
        rcases List.mem_cons.mp hmem with hh | ht
        · exfalso
          injection hh with h1 h2
          omega
        · have harith : k + (j + 1) = (k + 1) + j := by omega
          rwa [harith] at ht
      have hhead : ((((a, k) : PolicyRule × Nat).2) == k + (j + 1)) = false := by
        simp only [beq_eq_false_iff_ne, ne_eq]
        omega
      simp only [enumFrom, List.filter_cons, hhead, Bool.false_eq_true, if_false]
      have harith : k + (j + 1) = (k + 1) + j := by omega
      rw [harith]
      exact ih hmem'

theorem mem_enumFrom_of_mem {l : List PolicyRule} {x : PolicyRule} (h : x ∈ l) (k : Nat) :
    ∃ i, (x, k + i) ∈ enumFrom k l ∧ l.get? i = some x := by
  induction l generalizing k with
  | nil => cases h
  | cons a l ih =>
    rcases List.mem_cons.mp h with rfl | h'
    · refine ⟨0, ?_, rfl⟩
      have hz : k + 0 = k := rfl
      rw [hz]
      exact List.mem_cons_self _ _
    · rcases ih h' (k + 1) with ⟨i, hmem, hget⟩
      refine ⟨i + 1, ?_, hget⟩
      have harith : k + (i + 1) = (k + 1) + i := by omega
      rw [harith]
      exact List.mem_cons_of_mem _ hmem

/-- Claim C7: `removeRules` selects the custom rules satisfying every
provided filter, with omitted filters matching everything.  (a) When
nothing matches, the empty list is returned and the rule set is
unchanged.  (b) Every removed rule satisfies every provided filter.
(c) With `removeAll = true`, exactly the matches are removed (returned
newest-position-first, i.e. in reverse storage order) and exactly the
non-matches remain.  (d) With `removeAll = false` and a match `r` whose
`createdAt` is strictly the largest among the matches (and which is
stored once), exactly `r` is removed — the rule set loses only `r`'s
position — and `[r]` is returned as the snapshot list. -/
theorem claim_C7_removeRules (scopeArg : Option PermissionScope)
    (selectorArg : Option PolicySelector) (priorityArg : Option Int) (st : PMState) :
    (∀ removeAll : Bool,
      st.custom.filter (matchesFilters scopeArg selectorArg priorityArg) = [] →
      removeRules scopeArg selectorArg priorityArg removeAll st = ([], st)) ∧
    (∀ (removeAll : Bool) (r : PolicyRule),
      r ∈ (removeRules scopeArg selectorArg priorityArg removeAll st).1 →
      matchesFilters scopeArg selectorArg priorityArg r = true) ∧
    (removeRules scopeArg selectorArg priorityArg true st =
      ((st.custom.filter (matchesFilters scopeArg selectorArg priorityArg)).reverse,
       { st with custom :=
          st.custom.filter fun x => !(matchesFilters scopeArg selectorArg priorityArg x) })) ∧
    (∀ r : PolicyRule,
      matchesFilters scopeArg selectorArg priorityArg r = true →
      r ∈ st.custom →
      (∀ x ∈ st.custom, matchesFilters scopeArg selectorArg priorityArg x = true →
        x ≠ r → x.createdAt < r.createdAt) →
      st.custom.count r = 1 →
      ∃ i, st.custom.get? i = some r ∧
        removeRules scopeArg selectorArg priorityArg false st =
          ([r], { st with custom := st.custom.eraseIdx i })) := by
  refine ⟨?_, ?_, ?_, ?_⟩
  · intro removeAll hnil
    have hmatched : (enumFrom 0 st.custom).filter
        (fun e => matchesFilters scopeArg selectorArg priorityArg e.1) = [] := by
      have hm := enumFrom_filter_fst_map
        (matchesFilters scopeArg selectorArg priorityArg) 0 st.custom
      rw [hnil] at hm
      exact List.map_eq_nil_iff.mp hm
    simp [removeRules, hmatched]
  · intro removeAll r hr
    cases hE : ((enumFrom 0 st.custom).filter
        (fun e => matchesFilters scopeArg selectorArg priorityArg e.1)).isEmpty with
    | true =>
      simp [removeRules, hE] at hr
    | false =>
      simp only [removeRules, hE, Bool.false_eq_true, if_false] at hr
      rcases List.mem_map.mp hr with ⟨p, hp, hpf⟩
      have hp2 := List.mem_reverse.mp hp
      have hpe := List.mem_of_mem_filter hp2
      have hpc := List.of_mem_filter hp2
      have hm2 := List.elem_iff.mp hpc
      rcases List.mem_map.mp hm2 with ⟨q, hqc, hq2⟩
      have hqs : q ∈ sortByDesc entryCreatedBefore
          ((enumFrom 0 st.custom).filter
            (fun e => matchesFilters scopeArg selectorArg priorityArg e.1)) := by
        cases removeAll with
        | true => simpa using hqc
        | false => exact List.take_subset _ _ (by simpa using hqc)
      have hqm := (mem_sortByDesc _ _ q).mp hqs
      have hqe := List.mem_of_mem_filter hqm
      have hqmf := List.of_mem_filter hqm
      have hqp : q = p := enumFrom_idx_inj hqe hpe hq2
      rw [hqp] at hqmf
      rw [← hpf]
      exact hqmf
  · cases hE : ((enumFrom 0 st.custom).filter
        (fun e => matchesFilters scopeArg selectorArg priorityArg e.1)).isEmpty with
    | true =>
      have hmnil := List.isEmpty_iff.mp hE
      have hcf : st.custom.filter (matchesFilters scopeArg selectorArg priorityArg) = [] := by
        rw [← enumFrom_filter_fst_map (matchesFilters scopeArg selectorArg priorityArg) 0
          st.custom, hmnil]
        rfl
      have hall : st.custom.filter
          (fun x => !(matchesFilters scopeArg selectorArg priorityArg x)) = st.custom := by
        rw [List.filter_eq_self]
        intro a ha
        cases hma : matchesFilters scopeArg selectorArg priorityArg a with
        | false => rfl
        | true =>
          exfalso
          have hmem : a ∈ st.custom.filter (matchesFilters scopeArg selectorArg priorityArg) :=
            List.mem_filter.mpr ⟨ha, hma⟩
          rw [hcf] at hmem
          cases hmem
      simp [removeRules, hE, hcf, hall]
    | false =>
      have hptwise : ∀ p ∈ enumFrom 0 st.custom,
          (((sortByDesc entryCreatedBefore ((enumFrom 0 st.custom).filter
              (fun e => matchesFilters scopeArg selectorArg priorityArg e.1))).map
            (fun e => e.2)).contains p.2) =
            matchesFilters scopeArg selectorArg priorityArg p.1 := by
        intro p hp
        rw [Bool.eq_iff_iff]
        constructor
        · intro hc
          have hm2 := List.elem_iff.mp hc
          rcases List.mem_map.mp hm2 with ⟨q, hqs, hq2⟩
          have hqm := (mem_sortByDesc _ _ q).mp hqs
          have hqe := List.mem_of_mem_filter hqm
          have hqmf := List.of_mem_filter hqm
          have hqp : q = p := enumFrom_idx_inj hqe hp hq2
          rwa [hqp] at hqmf
        · intro hm
          have hpf : p ∈ (enumFrom 0 st.custom).filter
              (fun e => matchesFilters scopeArg selectorArg priorityArg e.1) :=
            List.mem_filter.mpr ⟨hp, hm⟩
          have hps := (mem_sortByDesc entryCreatedBefore _ p).mpr hpf
          exact List.elem_iff.mpr (List.mem_map.mpr ⟨p, hps, rfl⟩)
      have hrem := List.filter_congr hptwise
      have hrem2 : (enumFrom 0 st.custom).filter (fun e =>
          !(((sortByDesc entryCreatedBefore ((enumFrom 0 st.custom).filter
              (fun e2 => matchesFilters scopeArg selectorArg priorityArg e2.1))).map
            (fun e2 => e2.2)).contains e.2)) =
          (enumFrom 0 st.custom).filter
            (fun e => !(matchesFilters scopeArg selectorArg priorityArg e.1)) :=
        List.filter_congr (fun p hp => by rw [hptwise p hp])
      simp only [removeRules, hE, Bool.false_eq_true, if_false, if_true]
      rw [hrem, hrem2, List.map_reverse, enumFrom_filter_fst_map,
        enumFrom_filter_fst_map (fun x => !(matchesFilters scopeArg selectorArg priorityArg x))]
  · intro r hmf hmem hmax hcount
    rcases mem_enumFrom_of_mem hmem 0 with ⟨i, hpair0, hget⟩
    have hpair : (r, i) ∈ enumFrom 0 st.custom := by
      have hz : (0 : Nat) + i = i := by omega
      rwa [hz] at hpair0
    refine ⟨i, hget, ?_⟩
    have hp0f : (r, i) ∈ (enumFrom 0 st.custom).filter
        (fun e => matchesFilters scopeArg selectorArg priorityArg e.1) :=
      List.mem_filter.mpr ⟨hpair, hmf⟩
    have hE : ((enumFrom 0 st.custom).filter
        (fun e => matchesFilters scopeArg selectorArg priorityArg e.1)).isEmpty = false := by
      cases hE2 : ((enumFrom 0 st.custom).filter
          (fun e => matchesFilters scopeArg selectorArg priorityArg e.1)).isEmpty with
      | false => rfl
      | true =>
        exfalso
        rw [List.isEmpty_iff.mp hE2] at hp0f
        cases hp0f
    have hmaxp : ∀ q ∈ (enumFrom 0 st.custom).filter
        (fun e => matchesFilters scopeArg selectorArg priorityArg e.1),
        q ≠ (r, i) → entryCreatedBefore (r, i) q = true := by
      intro q hq hne
      obtain ⟨q1, q2⟩ := q
      have hqe := List.mem_of_mem_filter hq
      have hqmf := List.of_mem_filter hq
      by_cases hqr : q1 = r
      · subst hqr
        by_cases hqi : q2 = i
        · exact absurd (by rw [hqi]) hne
        · exfalso
          have h2c := enumFrom_two_mem_count hqe hpair hqi
          omega
      · have hlt := hmax q1 (mem_enumFrom_fst hqe) hqmf hqr
        simp only [entryCreatedBefore, decide_eq_true_eq]
        exact hlt
    rcases sortByDesc_head_max entryCreatedBefore_asym (r, i) _ hp0f hmaxp with ⟨t, ht⟩
    have hcontains : ∀ p ∈ enumFrom 0 st.custom,
        ((((sortByDesc entryCreatedBefore ((enumFrom 0 st.custom).filter
            (fun e => matchesFilters scopeArg selectorArg priorityArg e.1))).take 1).map
          (fun e => e.2)).contains p.2) = (p.2 == i) := by
      intro p hp
      rw [ht]
      simp only [List.take, List.map_cons, List.map_nil, List.contains_cons,
        List.contains_nil, Bool.or_false]
    have hselR := List.filter_congr hcontains
    have hselK : (enumFrom 0 st.custom).filter (fun e =>
        !((((sortByDesc entryCreatedBefore ((enumFrom 0 st.custom).filter
            (fun e2 => matchesFilters scopeArg selectorArg priorityArg e2.1))).take 1).map
          (fun e2 => e2.2)).contains e.2)) =
        (enumFrom 0 st.custom).filter (fun e => !(e.2 == i)) :=
      List.filter_congr (fun p hp => by rw [hcontains p hp])
    have hone : (enumFrom 0 st.custom).filter (fun e => (e.2 == i)) = [(r, i)] := by
      have h0 := enumFrom_filter_eq_idx (k := 0) (i := i) (x := r) hpair0
      have hz : (0 : Nat) + i = i := by omega
      rw [hz] at h0
      exact h0
    have herase : ((enumFrom 0 st.custom).filter (fun e => !(e.2 == i))).map
        (fun e => e.1) = st.custom.eraseIdx i := by
      have h0 := enumFrom_filter_ne_idx 0 i st.custom
      have hz : (0 : Nat) + i = i := by omega
      rw [hz] at h0
      exact h0
    simp only [removeRules, hE, Bool.false_eq_true, if_false]
    rw [hselR, hselK, hone, herase]
    rfl

/-- Witness for C7 at the spec's example: `removeRules(scope = group,
removeAll = false)` with three matching custom rules removes only the
one with the largest `createdAt`. -/
theorem claim_C7_witness :
    ∃ i,
      ([⟨"r1", .group, ⟨.everyone, none⟩, ⟨true, true, true⟩, 0, 1⟩,
        ⟨"r2", .group, ⟨.everyone, none⟩, ⟨true, true, true⟩, 0, 5⟩,
        ⟨"r3", .group, ⟨.everyone, none⟩, ⟨true, true, true⟩, 0, 3⟩] :
          List PolicyRule).get? i =
        some ⟨"r2", .group, ⟨.everyone, none⟩, ⟨true, true, true⟩, 0, 5⟩ ∧
      removeRules (some .group) none none false
        ⟨[⟨"r1", .group, ⟨.everyone, none⟩, ⟨true, true, true⟩, 0, 1⟩,
          ⟨"r2", .group, ⟨.everyone, none⟩, ⟨true, true, true⟩, 0, 5⟩,
          ⟨"r3", .group, ⟨.everyone, none⟩, ⟨true, true, true⟩, 0, 3⟩], []⟩ =
        ([⟨"r2", .group, ⟨.everyone, none⟩, ⟨true, true, true⟩, 0, 5⟩],
         ⟨([⟨"r1", .group, ⟨.everyone, none⟩, ⟨true, true, true⟩, 0, 1⟩,
            ⟨"r2", .group, ⟨.everyone, none⟩, ⟨true, true, true⟩, 0, 5⟩,
            ⟨"r3", .group, ⟨.everyone, none⟩, ⟨true, true, true⟩, 0, 3⟩] :
              List PolicyRule).eraseIdx i, []⟩) :=
  (claim_C7_removeRules (some .group) none none
    ⟨[⟨"r1", .group, ⟨.everyone, none⟩, ⟨true, true, true⟩, 0, 1⟩,
      ⟨"r2", .group, ⟨.everyone, none⟩, ⟨true, true, true⟩, 0, 5⟩,
      ⟨"r3", .group, ⟨.everyone, none⟩, ⟨true, true, true⟩, 0, 3⟩], []⟩).2.2.2
    ⟨"r2", .group, ⟨.everyone, none⟩, ⟨true, true, true⟩, 0, 5⟩
    (by decide) (by decide) (by decide) (by decide)

/-- Claim C8: loading the rule store never throws at its interface.
For an absent file, `ensureFile` creates the file with the serialized
empty custom list, and (provided the external `JSON.parse` inverts that
write) the load returns the empty storage.  For a present file whose
contents fail to parse, or parse to a value whose `custom` field is
missing/falsy, the load returns the empty storage instead of failing;
when the parse succeeds with a truthy `custom`, the parsed value itself
is returned.  (`loadStorage` is a total function of the file state and
of the parse outcome: every exception the source can encounter here is
the `JSON.parse` throw, which the `try`/`catch` turns into the empty
storage.) -/
theorem claim_C8_loadStorage_recovery (parseJs : String → Except Unit JsValue)
    (fileContent : Option String) :
    (fileContent = none → ensureFile fileContent = some defaultStorageText ∧
      (parseJs defaultStorageText = .ok emptyStorageJs →
        loadStorage parseJs fileContent = emptyStorageJs)) ∧
    (∀ raw, fileContent = some raw → parseJs raw = .error () →
      loadStorage parseJs fileContent = emptyStorageJs) ∧
    (∀ raw v, fileContent = some raw → parseJs raw = .ok v →
      (v.getField "custom").truthy = false →
      loadStorage parseJs fileContent = emptyStorageJs) ∧
    (∀ raw v, fileContent = some raw → parseJs raw = .ok v →
      (v.getField "custom").truthy = true →
      loadStorage parseJs fileContent = v) := by
  refine ⟨?_, ?_, ?_, ?_⟩
  · intro h
    subst h
    refine ⟨rfl, ?_⟩
    intro hp
    simp [loadStorage, ensureFile, hp]
  · intro raw h hp
    subst h
    simp [loadStorage, ensureFile, hp]
  · intro raw v h hp htruthy
    subst h
    simp [loadStorage, ensureFile, hp, htruthy]
  · intro raw v h hp htruthy
    subst h
    simp [loadStorage, ensureFile, hp, htruthy]

/-- Witness for C8: an absent file is created with the serialized empty
storage and loads as the empty storage, under a parse function that
inverts the write. -/
theorem claim_C8_witness :
    ensureFile none = some defaultStorageText ∧
    loadStorage freshFileParse none = emptyStorageJs := by
  have h := (claim_C8_loadStorage_recovery freshFileParse none).1 rfl
  refine ⟨h.1, h.2 ?_⟩
  simp [freshFileParse]

end QmojiPolicy
